import Mathlib

/-!
Verification of the grid-raycasting core of the repository.

The repository is a sequence of tutorial snapshots of one raycasting game,
concatenated in `src/index.ts`.  JavaScript `number` arithmetic is embedded
as exact rational arithmetic over `ℚ`; the trigonometric field-of-view
computation is embedded over `ℝ`.  The wall-tile payloads (colors, texture
images) are irrelevant to every claim and are modelled by an inert datatype.

Naming follows the source: `Vector2`, `snap`, `hittingCell`, `rayStep`,
`castRay`, `Scene`, `canPlayerGoThere`, `Player.fovRange`.  The third
snapshot's `alignToGrid`, `findCellAtRayEnd` and `findRayIntersection` are
textually identical to `snap`, `hittingCell` and `rayStep` and share one
embedding.  The `while` loop of `castRay` is embedded fuel-indexed as
`castRayAux`; termination within `FUEL` iterations is proved below.
-/

/-- 2D vector with the operations of the source's `Vector2` class. -/
structure Vector2 (α : Type) where
  x : α
  y : α
deriving DecidableEq

namespace Vector2

variable {α : Type} [LinearOrderedField α]

/-- Source `Vector2.zero()` -/
def zero : Vector2 α := ⟨0, 0⟩

/-- Source `add(that)` -/
def add (v w : Vector2 α) : Vector2 α := ⟨v.x + w.x, v.y + w.y⟩

/-- Source `sub(that)` -/
def sub (v w : Vector2 α) : Vector2 α := ⟨v.x - w.x, v.y - w.y⟩

/-- Source `scale(value)` -/
def scale (v : Vector2 α) (c : α) : Vector2 α := ⟨v.x * c, v.y * c⟩

/-- Source `rot90()` -/
def rot90 (v : Vector2 α) : Vector2 α := ⟨-v.y, v.x⟩

/-- Source `sqrLength()` -/
def sqrLength (v : Vector2 α) : α := v.x * v.x + v.y * v.y

/-- Source `sqrDistanceTo(that)`: `that.sub(this).sqrLength()` -/
def sqrDistanceTo (v w : Vector2 α) : α := (sub w v).sqrLength

/-- Source `dot(that)` -/
def dot (v w : Vector2 α) : α := v.x * w.x + v.y * w.y

/-- Source `map(f)` of the third snapshot -/
def map (v : Vector2 α) (f : α → α) : Vector2 α := ⟨f v.x, f v.y⟩

/-- Source `Vector2.scalar(value)` of the third snapshot -/
def scalar (c : α) : Vector2 α := ⟨c, c⟩

end Vector2

/-- The snapping epsilon, `const EPS = 1e-6` (first and third snapshots). -/
def EPS : ℚ := 1 / 1000000

/-- Source `const FAR_CLIPPING_PLANE = 20.0` of the third snapshot. -/
def FAR_CLIPPING_PLANE : ℚ := 20

/-- Source `const PLAYER_SIZE = 0.5` of the third snapshot. -/
def PLAYER_SIZE : ℚ := 1 / 2

namespace Math

/-- JavaScript `Math.sign`. -/
def sign (q : ℚ) : ℚ := if 0 < q then 1 else if q < 0 then -1 else 0

end Math

/-- Source `snap(x, dx)`: `Math.ceil(x + Math.sign(dx) * EPS)` when `dx > 0`,
`Math.floor(x + Math.sign(dx) * EPS)` when `dx < 0`, `x` otherwise.
The third snapshot's `alignToGrid` is textually identical. -/
def snap (x dx : ℚ) : ℚ :=
  if 0 < dx then ((⌈x + Math.sign dx * EPS⌉ : ℤ) : ℚ)
  else if dx < 0 then ((⌊x + Math.sign dx * EPS⌋ : ℤ) : ℚ)
  else x

/-- The snapping function as described by the specification's words:
for `dx>0` the next integer strictly greater than `x - ε` (i.e. `⌊x-ε⌋+1`),
for `dx<0` the next integer strictly less than `x + ε` (i.e. `⌈x+ε⌉-1`),
and `x` for `dx==0`.  Used to compare the spec's description against the
code's `snap`. -/
def snapSpec (x dx : ℚ) : ℚ :=
  if 0 < dx then ((⌊x - EPS⌋ + 1 : ℤ) : ℚ)
  else if dx < 0 then ((⌈x + EPS⌉ - 1 : ℤ) : ℚ)
  else x

/-- Source `hittingCell(p1, p2)`: floor of `p2` nudged by `sign(p2-p1)*EPS` per axis.
The third snapshot's `findCellAtRayEnd` is textually identical. -/
def hittingCell (p1 p2 : Vector2 ℚ) : Vector2 ℚ :=
  ⟨((⌊p2.x + Math.sign (Vector2.sub p2 p1).x * EPS⌋ : ℤ) : ℚ),
   ((⌊p2.y + Math.sign (Vector2.sub p2 p1).y * EPS⌋ : ℤ) : ℚ)⟩

/-- Source `rayStep(p1, p2)` (= `findRayIntersection` of the third snapshot):
advance the ray `p1 → p2` to its next grid-line crossing beyond `p2`. -/
def rayStep (p1 p2 : Vector2 ℚ) : Vector2 ℚ :=
  let d := Vector2.sub p2 p1
  if d.x ≠ 0 then
    let m := d.y / d.x
    let c := p1.y - m * p1.x
    let x3 := snap p2.x d.x
    let p3 : Vector2 ℚ := ⟨x3, x3 * m + c⟩
    if m ≠ 0 then
      let y3 := snap p2.y d.y
      let x3t := (y3 - c) / m
      let p3t : Vector2 ℚ := ⟨x3t, y3⟩
      if Vector2.sqrDistanceTo p2 p3t < Vector2.sqrDistanceTo p2 p3 then p3t else p3
    else p3
  else
    ⟨p2.x, snap p2.y d.y⟩

/-- Fuel-indexed embedding of `castRay`'s `while` loop.  `start` is the
saved original `p1`; the loop exits returning `p2` when the marched
distance reaches `far`, or when the cell at the ray's endpoint satisfies
the wall test `isW`; `none` means the fuel ran out before the loop exited
(proved below never to happen with `FUEL` fuel). -/
def castRayAux (isW : Vector2 ℚ → Bool) (far : ℚ) (start : Vector2 ℚ) :
    ℕ → Vector2 ℚ → Vector2 ℚ → Option (Vector2 ℚ)
  | 0, p1, p2 =>
    if Vector2.sqrDistanceTo start p1 < far * far then
      if isW (hittingCell p1 p2) then some p2 else none
    else some p2
  | n + 1, p1, p2 =>
    if Vector2.sqrDistanceTo start p1 < far * far then
      if isW (hittingCell p1 p2) then some p2
      else castRayAux isW far start n p2 (rayStep p1 p2)
    else some p2

/-- Fuel sufficient for every `castRay` loop with `far ≤ 20`: each
iteration after the first advances the ray's anchor point by at least
`EPS` in some coordinate, so `20/EPS + 1` iterations always reach the
far-clipping exit (proved in `castRayAux_isSome`). -/
def FUEL : ℕ := 20000001

/-- Payload of a non-empty wall tile (a color name or a texture image);
inert: no claim inspects it. -/
inductive TileData where
  | color (c : ℕ)
  | image (handle : ℕ)
deriving DecidableEq

/-- A grid cell's content, `String | HTMLImageElement | null` in the third
snapshot and `Color | HTMLImageElement | null` in the first: `none`
models JavaScript `null`. -/
abbrev Tile : Type := Option TileData

/-- JavaScript `Number.MIN_VALUE` = 2^(-1074), the initial accumulator of
the width computation in `Scene`'s constructor and in `sceneSize`.
The denominator literal is 2^1074. -/
def MIN_VALUE : ℚ := mkRat 1 202402253307310618352495346718917307049556649764142118356901358027430339567995346891960383701437124495187077864316811911389808737385793476867013399940738509921517424276566361364466907742093216341239767678472745068562007483424692698618103355649159556340810056512358769552333414615230502532186327508646006263307707741093494784

/-- Width computed by `Scene`'s constructor (and by `sceneSize` of the
first snapshot): fold of `Math.max` over the row lengths starting from
`Number.MIN_VALUE`. -/
def jsMaxWidth (rows : List (List Tile)) : ℚ :=
  rows.foldl (fun w r => max w ((r.length : ℕ) : ℚ)) MIN_VALUE

/-- One padded row of `Scene`'s constructor: the row followed by one
`null` per integer `i ≥ 0` with `i < width - row.length`. -/
def padRow (w : ℚ) (r : List Tile) : List Tile :=
  r ++ List.replicate (⌈w - ((r.length : ℕ) : ℚ)⌉).toNat (none : Tile)

/-- The `Scene` class of the third snapshot: flattened row-major tile
storage plus its width and height. -/
structure Scene where
  walls : List Tile
  width : ℚ
  height : ℚ

/-- Source `Scene`'s constructor from a (possibly jagged) list of rows. -/
def Scene.make (rows : List (List Tile)) : Scene :=
  { walls := (rows.map (padRow (jsMaxWidth rows))).flatten
    width := jsMaxWidth rows
    height := ((rows.length : ℕ) : ℚ) }

/-- Source `Scene.size()` -/
def Scene.size (s : Scene) : Vector2 ℚ := ⟨s.width, s.height⟩

/-- Source `Scene.contains(p)` -/
def Scene.contains (s : Scene) (p : Vector2 ℚ) : Bool :=
  decide (0 ≤ p.x) && decide (p.x < s.width) && decide (0 ≤ p.y) && decide (p.y < s.height)

/-- Source `Scene.getWall(p)`: `undefined` (here `none`) when out of bounds,
otherwise the JavaScript array access `walls[p.y * width + p.x]`, which is
`undefined` unless the index is a nonnegative integer below the length. -/
def Scene.getWall (s : Scene) (p : Vector2 ℚ) : Option Tile :=
  if s.contains p then
    let i : ℚ := p.y * s.width + p.x
    if i.den = 1 ∧ 0 ≤ i.num then s.walls[i.num.toNat]? else none
  else none

/-- Source `Scene.isWall(p)`: `tile !== null && tile !== undefined`. -/
def Scene.isWall (s : Scene) (p : Vector2 ℚ) : Bool :=
  match s.getWall p with
  | some (some _) => true
  | _ => false

/-- Source `castRay(scene, p1, p2)` of the third snapshot: the result of the
bounded marching loop (the fuel `FUEL` is unreachable, see
`castRayAux_isSome`, so the `getD` default never fires). -/
def castRay (scene : Scene) (p1 p2 : Vector2 ℚ) : Vector2 ℚ :=
  (castRayAux scene.isWall FAR_CLIPPING_PLANE p1 FUEL p1 p2).getD p2

/-- Source `canPlayerGoThere(scene, newPosition)` of the third snapshot: floor
the two corners of the square footprint of side `PLAYER_SIZE` centered at
`newPosition` and require every covered cell (inclusive double loop) to
be wall-free. -/
def canPlayerGoThere (scene : Scene) (newPosition : Vector2 ℚ) : Bool :=
  let leftTopCorner :=
    (Vector2.sub newPosition (Vector2.scalar (PLAYER_SIZE * (1/2)))).map (fun v => ((⌊v⌋ : ℤ) : ℚ))
  let rightBottomCorner :=
    (Vector2.add newPosition (Vector2.scalar (PLAYER_SIZE * (1/2)))).map (fun v => ((⌊v⌋ : ℤ) : ℚ))
  decide (∀ gx ∈ Finset.Icc ⌊leftTopCorner.x⌋ ⌊rightBottomCorner.x⌋,
    ∀ gy ∈ Finset.Icc ⌊leftTopCorner.y⌋ ⌊rightBottomCorner.y⌋,
      scene.isWall ⟨(gx : ℚ), (gy : ℚ)⟩ = false)

/-- Specification-side maximum row length of a jagged row list. -/
def maxRowLen (rows : List (List Tile)) : ℕ :=
  rows.foldl (fun a r => max a r.length) 0

namespace V1

/-- Source `const FAR_CLIPPING_PLANE = 10.0` of the first snapshot. -/
def FAR_CLIPPING_PLANE : ℚ := 10

/-- The first snapshot's `Scene` is a plain jagged array of rows. -/
abbrev SceneA : Type := List (List Tile)

/-- Source `sceneSize(scene)` of the first snapshot. -/
def sceneSize (scene : SceneA) : Vector2 ℚ :=
  ⟨jsMaxWidth scene, ((scene.length : ℕ) : ℚ)⟩

/-- Source `insideScene(scene, p)` of the first snapshot. -/
def insideScene (scene : SceneA) (p : Vector2 ℚ) : Bool :=
  decide (0 ≤ p.x) && decide (p.x < (sceneSize scene).x) &&
    decide (0 ≤ p.y) && decide (p.y < (sceneSize scene).y)

/-- JavaScript `scene[c.y][c.x]` on the jagged array: `undefined` (here
`none`) unless both coordinates are nonnegative integers hitting an
existing entry.  (Inside `castRay` the row access is guarded by
`insideScene`, and both coordinates are integral, being outputs of
`hittingCell`.) -/
def sceneAt (scene : SceneA) (c : Vector2 ℚ) : Option Tile :=
  if c.y.den = 1 ∧ 0 ≤ c.y.num ∧ c.x.den = 1 ∧ 0 ≤ c.x.num then
    match scene[c.y.num.toNat]? with
    | some row => row[c.x.num.toNat]?
    | none => none
  else none

/-- The first snapshot's loop break test,
`insideScene(scene, c) && scene[c.y][c.x] !== null`. -/
def isWallAt (scene : SceneA) (c : Vector2 ℚ) : Bool :=
  insideScene scene c && decide (sceneAt scene c ≠ some (none : Tile))

/-- Source `castRay(scene, p1, p2)` of the first snapshot. -/
def castRay (scene : SceneA) (p1 p2 : Vector2 ℚ) : Vector2 ℚ :=
  (castRayAux (isWallAt scene) FAR_CLIPPING_PLANE p1 FUEL p1 p2).getD p2

end V1

/-- The single-row scene `[0,0,0,1,0]` of the spec's worked example: one
wall tile at grid cell (3,0). -/
def sceneRow00010 : V1.SceneA :=
  [[none, none, none, some (TileData.color 1), none]]

/-- A one-cell wall-less scene, used to exercise `castRay` on an empty
scene. -/
def emptyScene : Scene := Scene.make [[none]]

/-- A jagged row list (second row shorter), used to exercise the `Scene`
constructor's padding. -/
def sceneJagged : List (List Tile) := [[some (TileData.color 0)], []]

noncomputable section

/-- Source `const NEAR_CLIPPING_PLANE = 0.1` of the third snapshot. -/
def NEAR_CLIPPING_PLANE : ℝ := 0.1

/-- Source `const FOV = Math.PI * 0.5`. -/
def FOV : ℝ := Real.pi * 0.5

/-- Source `length()` over the reals: `Math.sqrt(x*x + y*y)`. -/
def Vector2.length (v : Vector2 ℝ) : ℝ := Real.sqrt (v.x * v.x + v.y * v.y)

open Classical in
/-- Source `norm()` over the reals: the zero check of the source, then division
by the length. -/
def Vector2.norm (v : Vector2 ℝ) : Vector2 ℝ :=
  if v.length = 0 then ⟨0, 0⟩ else ⟨v.x / v.length, v.y / v.length⟩

/-- Source `Vector2.angle(angle)` (called `fromAngle` in the first snapshot). -/
def Vector2.angle (θ : ℝ) : Vector2 ℝ := ⟨Real.cos θ, Real.sin θ⟩

/-- The `Player` class of the third snapshot. -/
structure Player where
  position : Vector2 ℝ
  direction : ℝ

/-- Source `Player.fovRange()` of the third snapshot. -/
def Player.fovRange (pl : Player) : Vector2 ℝ × Vector2 ℝ :=
  let distanceToEdge := Real.tan (FOV * 0.5) * NEAR_CLIPPING_PLANE
  let frontPoint := pl.position.add ((Vector2.angle pl.direction).scale NEAR_CLIPPING_PLANE)
  let directionToEdge :=
    (((frontPoint.sub pl.position).rot90).norm).scale distanceToEdge
  (frontPoint.sub directionToEdge, frontPoint.add directionToEdge)

end

/-! ### Helper lemmas -/

theorem EPS_pos : 0 < EPS := by norm_num [EPS]

theorem Vector2.zero_iff (v : Vector2 ℚ) : v = Vector2.zero ↔ v.x = 0 ∧ v.y = 0 := by
  cases v
  simp [Vector2.zero]

theorem Math.sign_of_pos {q : ℚ} (h : 0 < q) : Math.sign q = 1 := by
  unfold Math.sign
  rw [if_pos h]

theorem Math.sign_of_neg {q : ℚ} (h : q < 0) : Math.sign q = -1 := by
  unfold Math.sign
  rw [if_neg (by linarith), if_pos h]

theorem snap_eq_pos (x dx : ℚ) (h : 0 < dx) : snap x dx = ((⌈x + EPS⌉ : ℤ) : ℚ) := by
  unfold snap
  rw [if_pos h, Math.sign_of_pos h, one_mul]

theorem snap_eq_neg (x dx : ℚ) (h : dx < 0) : snap x dx = ((⌊x - EPS⌋ : ℤ) : ℚ) := by
  unfold snap
  rw [if_neg (by linarith), if_pos h, Math.sign_of_neg h]
  norm_num [sub_eq_add_neg]

/-- In the travel direction `dx ≠ 0`, `snap` moves `x` strictly forward,
and by at least `EPS`. -/
theorem snap_move (x dx : ℚ) (h : dx ≠ 0) :
    0 < (snap x dx - x) / dx ∧ EPS ≤ (snap x dx - x) / dx * |dx| := by
  have hcancel : (snap x dx - x) / dx * dx = snap x dx - x := div_mul_cancel₀ _ h
  rcases h.lt_or_lt with hneg | hpos
  · have hle : snap x dx ≤ x - EPS := by
      rw [snap_eq_neg x dx hneg]
      exact_mod_cast Int.floor_le (x - EPS)
    have habs : |dx| = -dx := abs_of_neg hneg
    have hval : (snap x dx - x) / dx * |dx| = x - snap x dx := by
      rw [habs, mul_neg, hcancel]
      ring
    refine ⟨div_pos_of_neg_of_neg (by linarith [EPS_pos]) hneg, ?_⟩
    rw [hval]
    linarith
  · have hge : x + EPS ≤ snap x dx := by
      rw [snap_eq_pos x dx hpos]
      exact_mod_cast Int.le_ceil (x + EPS)
    have habs : |dx| = dx := abs_of_pos hpos
    have hval : (snap x dx - x) / dx * |dx| = snap x dx - x := by
      rw [habs, hcancel]
    refine ⟨div_pos (by linarith [EPS_pos]) hpos, ?_⟩
    rw [hval]
    linarith

/-- Core geometric property of `rayStep`: for a non-degenerate ray it
returns `p2 + t • (p2 - p1)` for some `t > 0` (in particular the result is
collinear with and strictly beyond `p2`), and the advance `t` moves some
coordinate by at least `EPS`. -/
theorem rayStep_forward (p1 p2 : Vector2 ℚ) (h : Vector2.sub p2 p1 ≠ Vector2.zero) :
    ∃ t : ℚ, 0 < t ∧
      rayStep p1 p2 = Vector2.add p2 (Vector2.scale (Vector2.sub p2 p1) t) ∧
      EPS ≤ t * max |(Vector2.sub p2 p1).x| |(Vector2.sub p2 p1).y| := by
  have hxy : (Vector2.sub p2 p1).x ≠ 0 ∨ (Vector2.sub p2 p1).y ≠ 0 := by
    by_contra hc
    push_neg at hc
    exact h ((Vector2.zero_iff _).mpr ⟨hc.1, hc.2⟩)
  simp only [Vector2.sub] at hxy
  simp only [rayStep, Vector2.sub, Vector2.add, Vector2.scale]
  split_ifs with h1 h2 h3
  · -- d.x ≠ 0, m ≠ 0, horizontal crossing is closer: result is `p3t`
    have hy : p2.y - p1.y ≠ 0 := fun hy0 => h2 (by rw [hy0]; simp)
    obtain ⟨ht, hmv⟩ := snap_move p2.y (p2.y - p1.y) hy
    refine ⟨(snap p2.y (p2.y - p1.y) - p2.y) / (p2.y - p1.y), ht, ?_, ?_⟩
    · simp only [Vector2.mk.injEq]
      constructor
      · field_simp
        ring
      · field_simp
    · calc EPS ≤ (snap p2.y (p2.y - p1.y) - p2.y) / (p2.y - p1.y) * |p2.y - p1.y| := hmv
        _ ≤ (snap p2.y (p2.y - p1.y) - p2.y) / (p2.y - p1.y) * max |p2.x - p1.x| |p2.y - p1.y| :=
          mul_le_mul_of_nonneg_left (le_max_right _ _) ht.le
  · -- d.x ≠ 0, m ≠ 0, vertical crossing kept: result is `p3`
    obtain ⟨ht, hmv⟩ := snap_move p2.x (p2.x - p1.x) h1
    refine ⟨(snap p2.x (p2.x - p1.x) - p2.x) / (p2.x - p1.x), ht, ?_, ?_⟩
    · simp only [Vector2.mk.injEq]
      constructor
      · field_simp
      · field_simp
        ring
    · calc EPS ≤ (snap p2.x (p2.x - p1.x) - p2.x) / (p2.x - p1.x) * |p2.x - p1.x| := hmv
        _ ≤ (snap p2.x (p2.x - p1.x) - p2.x) / (p2.x - p1.x) * max |p2.x - p1.x| |p2.y - p1.y| :=
          mul_le_mul_of_nonneg_left (le_max_left _ _) ht.le
  · -- d.x ≠ 0, m = 0 (horizontal ray): result is `p3`
    have hy0 : p2.y - p1.y = 0 := by
      rcases div_eq_zero_iff.mp (not_not.mp h2) with h0 | h0
      · exact h0
      · exact absurd h0 h1
    obtain ⟨ht, hmv⟩ := snap_move p2.x (p2.x - p1.x) h1
    refine ⟨(snap p2.x (p2.x - p1.x) - p2.x) / (p2.x - p1.x), ht, ?_, ?_⟩
    · simp only [Vector2.mk.injEq]
      constructor
      · field_simp
      · rw [hy0]
        field_simp
        linarith [hy0]
    · calc EPS ≤ (snap p2.x (p2.x - p1.x) - p2.x) / (p2.x - p1.x) * |p2.x - p1.x| := hmv
        _ ≤ (snap p2.x (p2.x - p1.x) - p2.x) / (p2.x - p1.x) * max |p2.x - p1.x| |p2.y - p1.y| :=
          mul_le_mul_of_nonneg_left (le_max_left _ _) ht.le
  · -- d.x = 0 (vertical ray): result is the snapped-`y` point
    have hx0 : p2.x - p1.x = 0 := not_not.mp h1
    have hy : p2.y - p1.y ≠ 0 := by
      rcases hxy with hx | hy
      · exact absurd hx0 hx
      · exact hy
    obtain ⟨ht, hmv⟩ := snap_move p2.y (p2.y - p1.y) hy
    refine ⟨(snap p2.y (p2.y - p1.y) - p2.y) / (p2.y - p1.y), ht, ?_, ?_⟩
    · simp only [Vector2.mk.injEq]
      constructor
      · rw [hx0]
        ring
      · field_simp
    · calc EPS ≤ (snap p2.y (p2.y - p1.y) - p2.y) / (p2.y - p1.y) * |p2.y - p1.y| := hmv
        _ ≤ (snap p2.y (p2.y - p1.y) - p2.y) / (p2.y - p1.y) * max |p2.x - p1.x| |p2.y - p1.y| :=
          mul_le_mul_of_nonneg_left (le_max_right _ _) ht.le

theorem Vector2.ne_zero_iff (v : Vector2 ℚ) : v ≠ Vector2.zero ↔ v.x ≠ 0 ∨ v.y ≠ 0 := by
  rw [← not_and_or]
  exact not_congr (Vector2.zero_iff v)

theorem Vector2.sub_ne_zero_of_ne {p1 p2 : Vector2 ℚ} (h : p1 ≠ p2) :
    Vector2.sub p2 p1 ≠ Vector2.zero := by
  intro hz
  rw [Vector2.zero_iff] at hz
  apply h
  cases p1 with
  | mk a b =>
    cases p2 with
    | mk c d =>
      simp only [Vector2.sub] at hz
      simp only [Vector2.mk.injEq]
      constructor <;> linarith [hz.1, hz.2]

theorem max_abs_pos {v : Vector2 ℚ} (h : v ≠ Vector2.zero) : 0 < max |v.x| |v.y| := by
  rcases (Vector2.ne_zero_iff v).mp h with h0 | h0
  · exact lt_max_iff.mpr (Or.inl (abs_pos.mpr h0))
  · exact lt_max_iff.mpr (Or.inr (abs_pos.mpr h0))

/-- Squared distance from `start` to the ray point with parameter `a`. -/
theorem sqrDist_state (start u : Vector2 ℚ) (a : ℚ) :
    Vector2.sqrDistanceTo start (Vector2.add start (Vector2.scale u a)) =
      a * a * (u.x * u.x + u.y * u.y) := by
  simp only [Vector2.sqrDistanceTo, Vector2.sqrLength, Vector2.sub, Vector2.add, Vector2.scale]
  ring

theorem sub_state (start u : Vector2 ℚ) (a b : ℚ) :
    Vector2.sub (Vector2.add start (Vector2.scale u b)) (Vector2.add start (Vector2.scale u a)) =
      Vector2.scale u (b - a) := by
  simp only [Vector2.sub, Vector2.add, Vector2.scale, Vector2.mk.injEq]
  constructor <;> ring

theorem add_state (start u : Vector2 ℚ) (a b t : ℚ) :
    Vector2.add (Vector2.add start (Vector2.scale u b))
        (Vector2.scale (Vector2.scale u (b - a)) t) =
      Vector2.add start (Vector2.scale u (b + (b - a) * t)) := by
  simp only [Vector2.add, Vector2.scale, Vector2.mk.injEq]
  constructor <;> ring

theorem scale_ne_zero {u : Vector2 ℚ} (h : u ≠ Vector2.zero) {c : ℚ} (hc : c ≠ 0) :
    Vector2.scale u c ≠ Vector2.zero := by
  rw [Vector2.ne_zero_iff] at h ⊢
  simp only [Vector2.scale]
  rcases h with h0 | h0
  · exact Or.inl (mul_ne_zero h0 hc)
  · exact Or.inr (mul_ne_zero h0 hc)

theorem max_abs_scale (u : Vector2 ℚ) (c : ℚ) :
    max |(Vector2.scale u c).x| |(Vector2.scale u c).y| = max |u.x| |u.y| * |c| := by
  simp only [Vector2.scale, abs_mul]
  rw [max_mul_of_nonneg _ _ (abs_nonneg c)]

theorem max_sq_le_sqrLength (u : Vector2 ℚ) :
    max |u.x| |u.y| * max |u.x| |u.y| ≤ u.x * u.x + u.y * u.y := by
  rcases le_total |u.x| |u.y| with hcmp | hcmp
  · rw [max_eq_right hcmp, abs_mul_abs_self]
    nlinarith [mul_self_nonneg u.x]
  · rw [max_eq_left hcmp, abs_mul_abs_self]
    nlinarith [mul_self_nonneg u.y]

/-- Core termination induction for the marching loop: on the state
`(start + a·u, start + b·u)` with a forward gap of at least `EPS/max|u|`,
fuel `n` with `far ≤ a·max|u| + n·EPS` suffices for the loop to exit. -/
theorem castRayAux_isSome_core (isW : Vector2 ℚ → Bool) (far : ℚ) (hfar0 : 0 ≤ far)
    (start u : Vector2 ℚ) (hu : u ≠ Vector2.zero) :
    ∀ (n : ℕ) (a b : ℚ), 0 ≤ a → a < b →
      EPS ≤ (b - a) * max |u.x| |u.y| →
      far ≤ a * max |u.x| |u.y| + n * EPS →
      (castRayAux isW far start n (Vector2.add start (Vector2.scale u a))
        (Vector2.add start (Vector2.scale u b))).isSome = true := by
  intro n
  induction n with
  | zero =>
    intro a b ha hab hgap hfar
    have hM : 0 < max |u.x| |u.y| := max_abs_pos hu
    have h1 : far ≤ a * max |u.x| |u.y| := by
      push_cast at hfar
      linarith
    have hguard :
        ¬ (Vector2.sqrDistanceTo start (Vector2.add start (Vector2.scale u a)) < far * far) := by
      rw [sqrDist_state]
      push_neg
      have h2 := max_sq_le_sqrLength u
      have h3 : far * far ≤ (a * max |u.x| |u.y|) * (a * max |u.x| |u.y|) :=
        mul_self_le_mul_self hfar0 h1
      nlinarith [mul_self_nonneg a]
    simp only [castRayAux]
    rw [if_neg hguard]
    rfl
  | succ n ih =>
    intro a b ha hab hgap hfar
    simp only [castRayAux]
    by_cases hguard :
        Vector2.sqrDistanceTo start (Vector2.add start (Vector2.scale u a)) < far * far
    · rw [if_pos hguard]
      by_cases hwall : isW (hittingCell (Vector2.add start (Vector2.scale u a))
          (Vector2.add start (Vector2.scale u b))) = true
      · rw [if_pos hwall]
        rfl
      · rw [if_neg hwall]
        have hne : Vector2.sub (Vector2.add start (Vector2.scale u b))
            (Vector2.add start (Vector2.scale u a)) ≠ Vector2.zero := by
          rw [sub_state]
          exact scale_ne_zero hu (by linarith)
        obtain ⟨t, ht, heq, hmv⟩ := rayStep_forward _ _ hne
        rw [sub_state] at heq hmv
        rw [heq, add_state]
        have hM : 0 < max |u.x| |u.y| := max_abs_pos hu
        rw [max_abs_scale, abs_of_pos (by linarith : (0:ℚ) < b - a)] at hmv
        apply ih b (b + (b - a) * t) (by linarith) (by nlinarith) ?_ ?_
        · have : (b + (b - a) * t - b) * max |u.x| |u.y| = t * (max |u.x| |u.y| * (b - a)) := by
            ring
          rw [this]
          exact hmv
        · push_cast at hfar ⊢
          nlinarith
    · rw [if_neg hguard]
      rfl

theorem state_one (p1 p2 : Vector2 ℚ) :
    Vector2.add p1 (Vector2.scale (Vector2.sub p2 p1) 1) = p2 := by
  cases p1 with
  | mk a b =>
    cases p2 with
    | mk c d =>
      simp only [Vector2.add, Vector2.scale, Vector2.sub, Vector2.mk.injEq]
      constructor <;> ring

/-- One unfolding of the loop at successor fuel. -/
theorem castRayAux_succ (isW : Vector2 ℚ → Bool) (far : ℚ) (start : Vector2 ℚ)
    (n : ℕ) (p1 p2 : Vector2 ℚ) :
    castRayAux isW far start (n + 1) p1 p2 =
      if Vector2.sqrDistanceTo start p1 < far * far then
        if isW (hittingCell p1 p2) then some p2
        else castRayAux isW far start n p2 (rayStep p1 p2)
      else some p2 := rfl

/-- Termination of the marching loop from its true initial state, for any
wall test and any far plane in `[0, 20]`: `FUEL` fuel always suffices. -/
theorem castRayAux_isSome (isW : Vector2 ℚ → Bool) (far : ℚ) (hfar0 : 0 ≤ far)
    (hfar : far ≤ 20) (p1 p2 : Vector2 ℚ) (h : p1 ≠ p2) :
    (castRayAux isW far p1 FUEL p1 p2).isSome = true := by
  have hu : Vector2.sub p2 p1 ≠ Vector2.zero := Vector2.sub_ne_zero_of_ne h
  have hM : 0 < max |(Vector2.sub p2 p1).x| |(Vector2.sub p2 p1).y| := max_abs_pos hu
  have hFUEL : FUEL = 20000000 + 1 := rfl
  rw [hFUEL, castRayAux_succ]
  by_cases hguard : Vector2.sqrDistanceTo p1 p1 < far * far
  · rw [if_pos hguard]
    by_cases hwall : isW (hittingCell p1 p2) = true
    · rw [if_pos hwall]
      rfl
    · rw [if_neg hwall]
      obtain ⟨t, ht, heq, hmv⟩ := rayStep_forward p1 p2 hu
      have hstep : rayStep p1 p2 =
          Vector2.add p1 (Vector2.scale (Vector2.sub p2 p1) (1 + t)) := by
        rw [heq]
        cases p1 with
        | mk a b =>
          cases p2 with
          | mk c d =>
            simp only [Vector2.add, Vector2.scale, Vector2.sub, Vector2.mk.injEq]
            constructor <;> ring
      have hcore := castRayAux_isSome_core isW far hfar0 p1 (Vector2.sub p2 p1) hu
        20000000 1 (1 + t) (by norm_num) (by linarith) ?_ ?_
      · rw [state_one, ← hstep] at hcore
        exact hcore
      · have h1 : (1 + t - 1) * max |(Vector2.sub p2 p1).x| |(Vector2.sub p2 p1).y| =
            t * max |(Vector2.sub p2 p1).x| |(Vector2.sub p2 p1).y| := by
          ring
        rw [h1]
        exact hmv
      · have h2 : ((20000000 : ℕ) : ℚ) * EPS = 20 := by
          norm_num [EPS]
        rw [h2]
        linarith
  · rw [if_neg hguard]
    rfl

/-- Every value the marching loop returns lies strictly forward on the ray
`start + c·u`, and is produced either by the far-clip exit (squared
distance from `start` at least `far²`) or by a wall hit. -/
theorem castRayAux_some_spec (isW : Vector2 ℚ → Bool) (far : ℚ) (start u : Vector2 ℚ)
    (hu : u ≠ Vector2.zero) :
    ∀ (n : ℕ) (a b : ℚ) (r : Vector2 ℚ), 0 ≤ a → a < b →
      castRayAux isW far start n (Vector2.add start (Vector2.scale u a))
        (Vector2.add start (Vector2.scale u b)) = some r →
      ∃ c : ℚ, 0 < c ∧ r = Vector2.add start (Vector2.scale u c) ∧
        (far * far ≤ Vector2.sqrDistanceTo start r ∨ ∃ q : Vector2 ℚ, isW q = true) := by
  have hfarcase : ∀ (a b : ℚ), 0 ≤ a → a < b →
      ¬ Vector2.sqrDistanceTo start (Vector2.add start (Vector2.scale u a)) < far * far →
      far * far ≤ Vector2.sqrDistanceTo start (Vector2.add start (Vector2.scale u b)) := by
    intro a b ha hab hguard
    rw [sqrDist_state] at hguard ⊢
    push_neg at hguard
    have hS : 0 ≤ u.x * u.x + u.y * u.y :=
      add_nonneg (mul_self_nonneg _) (mul_self_nonneg _)
    have h1 : a * a ≤ b * b := mul_self_le_mul_self ha hab.le
    have h2 : a * a * (u.x * u.x + u.y * u.y) ≤ b * b * (u.x * u.x + u.y * u.y) :=
      mul_le_mul_of_nonneg_right h1 hS
    linarith
  intro n
  induction n with
  | zero =>
    intro a b r ha hab heq
    simp only [castRayAux] at heq
    by_cases hguard :
        Vector2.sqrDistanceTo start (Vector2.add start (Vector2.scale u a)) < far * far
    · rw [if_pos hguard] at heq
      by_cases hwall : isW (hittingCell (Vector2.add start (Vector2.scale u a))
          (Vector2.add start (Vector2.scale u b))) = true
      · rw [if_pos hwall] at heq
        have hr := Option.some.inj heq
        subst hr
        exact ⟨b, by linarith, rfl, Or.inr ⟨_, hwall⟩⟩
      · rw [if_neg hwall] at heq
        exact absurd heq (by simp)
    · rw [if_neg hguard] at heq
      have hr := Option.some.inj heq
      subst hr
      exact ⟨b, by linarith, rfl, Or.inl (hfarcase a b ha hab hguard)⟩
  | succ n ih =>
    intro a b r ha hab heq
    rw [castRayAux_succ] at heq
    by_cases hguard :
        Vector2.sqrDistanceTo start (Vector2.add start (Vector2.scale u a)) < far * far
    · rw [if_pos hguard] at heq
      by_cases hwall : isW (hittingCell (Vector2.add start (Vector2.scale u a))
          (Vector2.add start (Vector2.scale u b))) = true
      · rw [if_pos hwall] at heq
        have hr := Option.some.inj heq
        subst hr
        exact ⟨b, by linarith, rfl, Or.inr ⟨_, hwall⟩⟩
      · rw [if_neg hwall] at heq
        have hne : Vector2.sub (Vector2.add start (Vector2.scale u b))
            (Vector2.add start (Vector2.scale u a)) ≠ Vector2.zero := by
          rw [sub_state]
          exact scale_ne_zero hu (by linarith)
        obtain ⟨t, ht, hstepeq, _⟩ := rayStep_forward _ _ hne
        rw [sub_state] at hstepeq
        rw [hstepeq, add_state] at heq
        have hM : 0 < max |u.x| |u.y| := max_abs_pos hu
        exact ih b (b + (b - a) * t) r (by linarith) (by nlinarith) heq
    · rw [if_neg hguard] at heq
      have hr := Option.some.inj heq
      subst hr
      exact ⟨b, by linarith, rfl, Or.inl (hfarcase a b ha hab hguard)⟩

theorem state_zero (p1 p2 : Vector2 ℚ) :
    Vector2.add p1 (Vector2.scale (Vector2.sub p2 p1) 0) = p1 := by
  cases p1 with
  | mk a b =>
    cases p2 with
    | mk c d =>
      simp only [Vector2.add, Vector2.scale, Vector2.sub, Vector2.mk.injEq]
      constructor <;> ring

/-- What `castRay` (third snapshot) returns: a point strictly forward on
the ray through `p1` and `p2`, produced by far-clip exit or a wall hit. -/
theorem castRay_spec (scene : Scene) (p1 p2 : Vector2 ℚ) (h : p1 ≠ p2) :
    ∃ c : ℚ, 0 < c ∧
      castRay scene p1 p2 = Vector2.add p1 (Vector2.scale (Vector2.sub p2 p1) c) ∧
      (FAR_CLIPPING_PLANE * FAR_CLIPPING_PLANE ≤
          Vector2.sqrDistanceTo p1 (castRay scene p1 p2) ∨
        ∃ q : Vector2 ℚ, scene.isWall q = true) := by
  have hu := Vector2.sub_ne_zero_of_ne h
  have hsome := castRayAux_isSome scene.isWall FAR_CLIPPING_PLANE
    (by norm_num [FAR_CLIPPING_PLANE]) (by norm_num [FAR_CLIPPING_PLANE]) p1 p2 h
  obtain ⟨r, hr⟩ := Option.isSome_iff_exists.mp hsome
  have hcast : castRay scene p1 p2 = r := by
    unfold castRay
    rw [hr]
    rfl
  have hr2 : castRayAux scene.isWall FAR_CLIPPING_PLANE p1 FUEL
      (Vector2.add p1 (Vector2.scale (Vector2.sub p2 p1) 0))
      (Vector2.add p1 (Vector2.scale (Vector2.sub p2 p1) 1)) = some r := by
    rw [state_zero, state_one]
    exact hr
  obtain ⟨c, hc, hrc, hdisj⟩ := castRayAux_some_spec scene.isWall FAR_CLIPPING_PLANE
    p1 (Vector2.sub p2 p1) hu FUEL 0 1 r (le_refl 0) one_pos hr2
  rw [hcast]
  refine ⟨c, hc, hrc, ?_⟩
  rcases hdisj with hfar | hq
  · exact Or.inl hfar
  · exact Or.inr hq

/-- A scene whose flattened storage holds only `null` has no wall
anywhere. -/
theorem isWall_eq_false (s : Scene) (hwalls : ∀ t ∈ s.walls, t = (none : Tile))
    (q : Vector2 ℚ) : s.isWall q = false := by
  have hg : ∀ d : TileData, s.getWall q ≠ some (some d) := by
    intro d hw
    simp only [Scene.getWall] at hw
    split_ifs at hw with h1 h2
    have hmem := List.getElem?_mem hw
    have := hwalls _ hmem
    simp at this
  cases hgw : s.getWall q with
  | none => simp [Scene.isWall, hgw]
  | some t =>
    cases t with
    | none => simp [Scene.isWall, hgw]
    | some d => exact absurd hgw (hg d)

/-! ### Claim theorems -/

/-- C1: for every pair of points with direction `d = p2 - p1` nonzero,
`rayStep(p1, p2)` is strictly farther from the ray's origin `p1` than `p2`
is; hence iterating `rayStep` strictly increases distance from the origin
and never stalls on a grid boundary. -/
theorem rayStep_strict_progress (p1 p2 : Vector2 ℚ)
    (h : Vector2.sub p2 p1 ≠ Vector2.zero) :
    Vector2.sqrDistanceTo p1 p2 < Vector2.sqrDistanceTo p1 (rayStep p1 p2) := by
  obtain ⟨t, ht, heq, _⟩ := rayStep_forward p1 p2 h
  have hd := (Vector2.ne_zero_iff _).mp h
  rw [heq]
  have hpos : 0 < (p2.x - p1.x) * (p2.x - p1.x) + (p2.y - p1.y) * (p2.y - p1.y) := by
    simp only [Vector2.sub] at hd
    rcases hd with h0 | h0
    · nlinarith [mul_self_pos.mpr h0, mul_self_nonneg (p2.y - p1.y)]
    · nlinarith [mul_self_pos.mpr h0, mul_self_nonneg (p2.x - p1.x)]
  simp only [Vector2.sqrDistanceTo, Vector2.sqrLength, Vector2.sub, Vector2.add, Vector2.scale]
  nlinarith [mul_pos hpos ht, mul_pos (mul_pos hpos ht) ht]

/-- Witness for C1 at `p1 = (0,0)`, `p2 = (1/2, 1/2)`. -/
theorem rayStep_strict_progress_witness :
    Vector2.sub (⟨1/2, 1/2⟩ : Vector2 ℚ) ⟨0, 0⟩ ≠ Vector2.zero ∧
    Vector2.sqrDistanceTo (⟨0, 0⟩ : Vector2 ℚ) ⟨1/2, 1/2⟩ <
      Vector2.sqrDistanceTo ⟨0, 0⟩ (rayStep ⟨0, 0⟩ ⟨1/2, 1/2⟩) :=
  ⟨by with_unfolding_all decide,
   rayStep_strict_progress ⟨0, 0⟩ ⟨1/2, 1/2⟩ (by with_unfolding_all decide)⟩

/-- C2: for every scene and distinct origin/through points, the marching
loop of `castRay` terminates — it exits (far-clip or wall hit) within
finitely many iterations; this holds for the `Scene`-class caster
(`FAR_CLIPPING_PLANE = 20`) and for the first snapshot's caster
(`FAR_CLIPPING_PLANE = 10`) alike. -/
theorem castRay_terminates (scene : Scene) (scn : V1.SceneA) (p1 p2 : Vector2 ℚ)
    (h : p1 ≠ p2) :
    (∃ n : ℕ, (castRayAux scene.isWall FAR_CLIPPING_PLANE p1 n p1 p2).isSome = true) ∧
    (∃ n : ℕ, (castRayAux (V1.isWallAt scn) V1.FAR_CLIPPING_PLANE p1 n p1 p2).isSome = true) :=
  ⟨⟨FUEL, castRayAux_isSome _ _ (by norm_num [FAR_CLIPPING_PLANE])
      (by norm_num [FAR_CLIPPING_PLANE]) p1 p2 h⟩,
   ⟨FUEL, castRayAux_isSome _ _ (by norm_num [V1.FAR_CLIPPING_PLANE])
      (by norm_num [V1.FAR_CLIPPING_PLANE]) p1 p2 h⟩⟩

/-- Witness for C2 at the empty scene, the example scene, and the ray
from `(0,0)` through `(1,1)`. -/
theorem castRay_terminates_witness :
    (⟨0, 0⟩ : Vector2 ℚ) ≠ ⟨1, 1⟩ ∧
    ((∃ n : ℕ, (castRayAux emptyScene.isWall FAR_CLIPPING_PLANE
        ⟨0, 0⟩ n ⟨0, 0⟩ ⟨1, 1⟩).isSome = true) ∧
     (∃ n : ℕ, (castRayAux (V1.isWallAt sceneRow00010) V1.FAR_CLIPPING_PLANE
        ⟨0, 0⟩ n ⟨0, 0⟩ ⟨1, 1⟩).isSome = true)) :=
  ⟨by with_unfolding_all decide,
   castRay_terminates emptyScene sceneRow00010 ⟨0, 0⟩ ⟨1, 1⟩ (by with_unfolding_all decide)⟩

/-- C3 counterexample: at `x = 0`, `dx = 1` the code's `snap` returns
`ceil(0 + EPS) = 1`, whereas the spec's description — the next integer
strictly greater than `x - ε`, here the least integer above `-EPS`,
i.e. `0` — returns `0`. -/
theorem snap_ne_snapSpec : snap 0 1 = 1 ∧ snapSpec 0 1 = 0 ∧ snap 0 1 ≠ snapSpec 0 1 := by
  with_unfolding_all decide

/-- C3 (amended): for `dx > 0`, `snap` returns the least integer that is
at least `x + EPS` (not the least integer strictly greater than
`x - EPS`); for `dx < 0` the greatest integer at most `x - EPS`; and `x`
unchanged for `dx = 0`. -/
theorem snap_characterization (x dx : ℚ) :
    (0 < dx → ∃ n : ℤ, snap x dx = (n : ℚ) ∧ x + EPS ≤ (n : ℚ) ∧
      ∀ m : ℤ, x + EPS ≤ (m : ℚ) → n ≤ m) ∧
    (dx < 0 → ∃ n : ℤ, snap x dx = (n : ℚ) ∧ (n : ℚ) ≤ x - EPS ∧
      ∀ m : ℤ, (m : ℚ) ≤ x - EPS → m ≤ n) ∧
    (dx = 0 → snap x dx = x) := by
  refine ⟨fun h => ⟨⌈x + EPS⌉, snap_eq_pos x dx h, Int.le_ceil _,
      fun m hm => Int.ceil_le.mpr hm⟩,
    fun h => ⟨⌊x - EPS⌋, snap_eq_neg x dx h, Int.floor_le _,
      fun m hm => Int.le_floor.mpr hm⟩,
    fun h => ?_⟩
  unfold snap
  rw [if_neg (by simp [h]), if_neg (by simp [h])]

/-- Witness for C3 (amended) at `x = 0`, `dx = 1`. -/
theorem snap_characterization_witness :
    (0 : ℚ) < 1 ∧ ∃ n : ℤ, snap 0 1 = (n : ℚ) ∧ (0 : ℚ) + EPS ≤ (n : ℚ) ∧
      ∀ m : ℤ, (0 : ℚ) + EPS ≤ (m : ℚ) → n ≤ m :=
  ⟨by norm_num, (snap_characterization 0 1).1 (by norm_num)⟩

set_option maxRecDepth 80000 in
/-- C4: on the single-row scene `[0,0,0,1,0]` (one wall tile at cell
`(3,0)`), casting from `(0.5, 0.5)` in direction `(1,0)` (through point
`(1.5, 0.5)`) returns the hit point `(3.0, 0.5)`, on the wall cell's
boundary with integral `x`. -/
theorem castRay_example_row :
    V1.castRay sceneRow00010 ⟨1/2, 1/2⟩ ⟨3/2, 1/2⟩ = ⟨3, 1/2⟩ := by
  with_unfolding_all decide

set_option maxRecDepth 400000 in
/-- C5 counterexample: on a wall-less scene, `castRay` from `(0.5, 0.5)`
through `(1.5, 0.5)` returns `(22, 0.5)`, at distance `21.5` from the
origin — beyond `FAR_CLIPPING_PLANE + 1`, not approximately the
far-clipping distance `20` within floating-point tolerance. -/
theorem castRay_far_overshoot :
    castRay emptyScene ⟨1/2, 1/2⟩ ⟨3/2, 1/2⟩ = ⟨22, 1/2⟩ ∧
    (FAR_CLIPPING_PLANE + 1) * (FAR_CLIPPING_PLANE + 1) <
      Vector2.sqrDistanceTo ⟨1/2, 1/2⟩ (castRay emptyScene ⟨1/2, 1/2⟩ ⟨3/2, 1/2⟩) := by
  with_unfolding_all decide

/-- C5 (amended): on a scene with no wall tiles, `castRay` returns a point
whose distance from the origin is at least `FAR_CLIPPING_PLANE` (it stops
at the first grid crossing past the far clip; the overshoot can exceed a
whole grid unit, so "approximately equal within floating-point tolerance"
fails, see the counterexample). -/
theorem castRay_emptyScene_far (scene : Scene) (p1 p2 : Vector2 ℚ)
    (hnw : ∀ t ∈ scene.walls, t = (none : Tile)) (h : p1 ≠ p2) :
    FAR_CLIPPING_PLANE * FAR_CLIPPING_PLANE ≤
      Vector2.sqrDistanceTo p1 (castRay scene p1 p2) := by
  obtain ⟨c, hc, hrc, hdisj⟩ := castRay_spec scene p1 p2 h
  rcases hdisj with hfar | ⟨q, hq⟩
  · exact hfar
  · rw [isWall_eq_false scene hnw q] at hq
    exact absurd hq (by simp)

/-- Witness for C5 (amended) on the one-cell wall-less scene. -/
theorem castRay_emptyScene_far_witness :
    (∀ t ∈ emptyScene.walls, t = (none : Tile)) ∧
    (⟨1/2, 1/2⟩ : Vector2 ℚ) ≠ ⟨3/2, 1/2⟩ ∧
    FAR_CLIPPING_PLANE * FAR_CLIPPING_PLANE ≤
      Vector2.sqrDistanceTo ⟨1/2, 1/2⟩ (castRay emptyScene ⟨1/2, 1/2⟩ ⟨3/2, 1/2⟩) :=
  ⟨by with_unfolding_all decide, by with_unfolding_all decide,
   castRay_emptyScene_far emptyScene ⟨1/2, 1/2⟩ ⟨3/2, 1/2⟩
     (by with_unfolding_all decide) (by with_unfolding_all decide)⟩

/-- C10: implicit collinearity invariant: `rayStep(p1, p2)` lies (in exact
arithmetic) on the line through `p1` and `p2`, strictly beyond `p2` in the
direction `p2 - p1`; consequently `castRay(scene, origin, throughPoint)`
lies on the ray from the origin through the through point. -/
theorem ray_collinearity (scene : Scene) (p1 p2 : Vector2 ℚ) (h : p1 ≠ p2) :
    (∃ t : ℚ, 0 < t ∧
      rayStep p1 p2 = Vector2.add p2 (Vector2.scale (Vector2.sub p2 p1) t)) ∧
    (∃ t : ℚ, 0 < t ∧
      castRay scene p1 p2 = Vector2.add p1 (Vector2.scale (Vector2.sub p2 p1) t)) := by
  constructor
  · obtain ⟨t, ht, heq, _⟩ := rayStep_forward p1 p2 (Vector2.sub_ne_zero_of_ne h)
    exact ⟨t, ht, heq⟩
  · obtain ⟨c, hc, hrc, _⟩ := castRay_spec scene p1 p2 h
    exact ⟨c, hc, hrc⟩

/-- Witness for C10 on the wall-less scene with the ray from `(0,0)`
through `(1, 2)`. -/
theorem ray_collinearity_witness :
    (⟨0, 0⟩ : Vector2 ℚ) ≠ ⟨1, 2⟩ ∧
    ((∃ t : ℚ, 0 < t ∧
        rayStep ⟨0, 0⟩ ⟨1, 2⟩ =
          Vector2.add ⟨1, 2⟩ (Vector2.scale (Vector2.sub ⟨1, 2⟩ ⟨0, 0⟩) t)) ∧
     (∃ t : ℚ, 0 < t ∧
        castRay emptyScene ⟨0, 0⟩ ⟨1, 2⟩ =
          Vector2.add ⟨0, 0⟩ (Vector2.scale (Vector2.sub ⟨1, 2⟩ ⟨0, 0⟩) t))) :=
  ⟨by with_unfolding_all decide,
   ray_collinearity emptyScene ⟨0, 0⟩ ⟨1, 2⟩ (by with_unfolding_all decide)⟩

/-- C9: for every scene and point with `contains(p)` false (`p.x < 0`, or
`p.x ≥ width`, or `p.y < 0`, or `p.y ≥ height`), `getWall` returns the
explicit no-tile sentinel `undefined` (here `none`) without any fault, and
`isWall` returns `false`: out of bounds is empty space. -/
theorem getWall_out_of_bounds (s : Scene) (p : Vector2 ℚ)
    (h : p.x < 0 ∨ s.width ≤ p.x ∨ p.y < 0 ∨ s.height ≤ p.y) :
    s.getWall p = none ∧ s.isWall p = false := by
  have hc : ¬ (s.contains p = true) := by
    simp only [Scene.contains, Bool.and_eq_true, decide_eq_true_eq]
    rintro ⟨⟨⟨h1, h2⟩, h3⟩, h4⟩
    rcases h with h0 | h0 | h0 | h0 <;> linarith
  have hgw : s.getWall p = none := by
    simp only [Scene.getWall]
    rw [if_neg hc]
  exact ⟨hgw, by simp [Scene.isWall, hgw]⟩

/-- Witness for C9: the point `(5, 0)` is outside the 1×1 scene. -/
theorem getWall_out_of_bounds_witness :
    ((5 : ℚ) < 0 ∨ emptyScene.width ≤ 5 ∨ (0 : ℚ) < 0 ∨ emptyScene.height ≤ 0) ∧
    emptyScene.getWall ⟨5, 0⟩ = none ∧ emptyScene.isWall ⟨5, 0⟩ = false :=
  ⟨Or.inr (Or.inl (by with_unfolding_all decide)),
   getWall_out_of_bounds emptyScene ⟨5, 0⟩
     (Or.inr (Or.inl (by with_unfolding_all decide)))⟩

/-- C7: `canPlayerGoThere` returns `true` exactly when every grid cell
covered by the axis-aligned square footprint of side `PLAYER_SIZE`
centered at the target (corners floored, iterated inclusively) is
wall-free — so it returns `false` whenever some covered cell is a wall
and `true` whenever all are empty, whatever the fractional offset. -/
theorem canPlayerGoThere_iff (scene : Scene) (p : Vector2 ℚ) :
    canPlayerGoThere scene p = true ↔
      ∀ gx gy : ℤ, ⌊p.x - PLAYER_SIZE * (1/2)⌋ ≤ gx → gx ≤ ⌊p.x + PLAYER_SIZE * (1/2)⌋ →
        ⌊p.y - PLAYER_SIZE * (1/2)⌋ ≤ gy → gy ≤ ⌊p.y + PLAYER_SIZE * (1/2)⌋ →
        scene.isWall ⟨(gx : ℚ), (gy : ℚ)⟩ = false := by
  simp only [canPlayerGoThere, Vector2.sub, Vector2.add, Vector2.scalar, Vector2.map,
    Int.floor_intCast, decide_eq_true_eq]
  constructor
  · intro hall gx gy h1 h2 h3 h4
    exact hall gx (Finset.mem_Icc.mpr ⟨h1, h2⟩) gy (Finset.mem_Icc.mpr ⟨h3, h4⟩)
  · intro hall gx hgx gy hgy
    exact hall gx gy (Finset.mem_Icc.mp hgx).1 (Finset.mem_Icc.mp hgx).2
      (Finset.mem_Icc.mp hgy).1 (Finset.mem_Icc.mp hgy).2

theorem Vector2.add_sub_cancel_left (p w : Vector2 ℝ) :
    Vector2.sub (Vector2.add p w) p = w := by
  cases p with
  | mk a b =>
    cases w with
    | mk c d =>
      simp only [Vector2.add, Vector2.sub, Vector2.mk.injEq]
      constructor <;> ring

theorem NEAR_CLIPPING_PLANE_pos : (0 : ℝ) < NEAR_CLIPPING_PLANE := by
  norm_num [NEAR_CLIPPING_PLANE]

/-- The length of the rotated near-plane offset is exactly
`NEAR_CLIPPING_PLANE`. -/
theorem length_rot90_near (θ : ℝ) :
    (Vector2.rot90 ((Vector2.angle θ).scale NEAR_CLIPPING_PLANE)).length =
      NEAR_CLIPPING_PLANE := by
  simp only [Vector2.length, Vector2.rot90, Vector2.scale, Vector2.angle]
  have hsum : -(Real.sin θ * NEAR_CLIPPING_PLANE) * -(Real.sin θ * NEAR_CLIPPING_PLANE) +
      Real.cos θ * NEAR_CLIPPING_PLANE * (Real.cos θ * NEAR_CLIPPING_PLANE) =
      NEAR_CLIPPING_PLANE ^ 2 := by
    calc -(Real.sin θ * NEAR_CLIPPING_PLANE) * -(Real.sin θ * NEAR_CLIPPING_PLANE) +
        Real.cos θ * NEAR_CLIPPING_PLANE * (Real.cos θ * NEAR_CLIPPING_PLANE) =
        (Real.sin θ ^ 2 + Real.cos θ ^ 2) * NEAR_CLIPPING_PLANE ^ 2 := by ring
      _ = 1 * NEAR_CLIPPING_PLANE ^ 2 := by rw [Real.sin_sq_add_cos_sq]
      _ = NEAR_CLIPPING_PLANE ^ 2 := by ring
  rw [hsum, Real.sqrt_sq NEAR_CLIPPING_PLANE_pos.le]

/-- Normalizing the rotated near-plane offset yields exactly the rotated
unit view direction. -/
theorem norm_rot90_near (θ : ℝ) :
    (Vector2.rot90 ((Vector2.angle θ).scale NEAR_CLIPPING_PLANE)).norm =
      Vector2.rot90 (Vector2.angle θ) := by
  unfold Vector2.norm
  rw [length_rot90_near θ, if_neg (by norm_num [NEAR_CLIPPING_PLANE])]
  simp only [Vector2.rot90, Vector2.scale, Vector2.angle, Vector2.mk.injEq]
  constructor
  · rw [neg_div, mul_div_assoc, div_self (by norm_num [NEAR_CLIPPING_PLANE] : NEAR_CLIPPING_PLANE ≠ 0), mul_one]
  · rw [mul_div_assoc, div_self (by norm_num [NEAR_CLIPPING_PLANE] : NEAR_CLIPPING_PLANE ≠ 0), mul_one]

/-- C6: `fovRange()` returns the pair `(p - t·n, p + t·n)` in that
left/right order, where `p = position + nearPlane·(cos θ, sin θ)` is the
point directly ahead at the near-plane distance,
`t = tan(FOV/2) · nearPlane`, and `n = rot90(cos θ, sin θ)` is the unit
perpendicular of the view direction. -/
theorem fovRange_eq (pl : Player) :
    pl.fovRange =
      (Vector2.sub
        (Vector2.add pl.position ((Vector2.angle pl.direction).scale NEAR_CLIPPING_PLANE))
        ((Vector2.rot90 (Vector2.angle pl.direction)).scale
          (Real.tan (FOV * 0.5) * NEAR_CLIPPING_PLANE)),
       Vector2.add
        (Vector2.add pl.position ((Vector2.angle pl.direction).scale NEAR_CLIPPING_PLANE))
        ((Vector2.rot90 (Vector2.angle pl.direction)).scale
          (Real.tan (FOV * 0.5) * NEAR_CLIPPING_PLANE))) := by
  simp only [Player.fovRange]
  rw [Vector2.add_sub_cancel_left, norm_rot90_near]

theorem foldl_max_len (t : List (List Tile)) :
    ∀ a : ℕ, t.foldl (fun x r => max x r.length) a = max a (maxRowLen t) := by
  induction t with
  | nil =>
    intro a
    simp [maxRowLen]
  | cons r t ih =>
    intro a
    rw [List.foldl_cons, ih (max a r.length)]
    have hcons : maxRowLen (r :: t) = max r.length (maxRowLen t) := by
      simp only [maxRowLen, List.foldl_cons]
      rw [ih (max 0 r.length), Nat.zero_max]
      rfl
    rw [hcons, Nat.max_assoc]

theorem maxRowLen_cons (r : List Tile) (t : List (List Tile)) :
    maxRowLen (r :: t) = max r.length (maxRowLen t) := by
  simp only [maxRowLen, List.foldl_cons]
  rw [foldl_max_len t (max 0 r.length), Nat.zero_max]
  rfl

theorem foldl_max_len_q (rows : List (List Tile)) :
    ∀ a : ℚ, 0 ≤ a →
      rows.foldl (fun w r => max w ((r.length : ℕ) : ℚ)) a =
        max a ((maxRowLen rows : ℕ) : ℚ) := by
  induction rows with
  | nil =>
    intro a ha
    simp only [List.foldl_nil, maxRowLen, Nat.cast_zero]
    exact (max_eq_left ha).symm
  | cons r t ih =>
    intro a ha
    rw [List.foldl_cons, ih (max a ((r.length : ℕ) : ℚ)) (le_max_of_le_left ha)]
    rw [maxRowLen_cons, Nat.cast_max, max_assoc]

theorem MIN_VALUE_pos : 0 < MIN_VALUE := by with_unfolding_all decide

theorem MIN_VALUE_le_one : MIN_VALUE ≤ 1 := by with_unfolding_all decide

theorem jsMaxWidth_eq (rows : List (List Tile)) :
    jsMaxWidth rows = max MIN_VALUE ((maxRowLen rows : ℕ) : ℚ) :=
  foldl_max_len_q rows MIN_VALUE MIN_VALUE_pos.le

theorem width_eq (rows : List (List Tile)) (h : 1 ≤ maxRowLen rows) :
    jsMaxWidth rows = ((maxRowLen rows : ℕ) : ℚ) := by
  rw [jsMaxWidth_eq]
  refine max_eq_right (le_trans MIN_VALUE_le_one ?_)
  exact_mod_cast h

theorem le_maxRowLen : ∀ (rows : List (List Tile)), ∀ r ∈ rows, r.length ≤ maxRowLen rows := by
  intro rows
  induction rows with
  | nil =>
    intro r hr
    exact absurd hr (List.not_mem_nil r)
  | cons s t ih =>
    intro r hr
    rw [maxRowLen_cons]
    rcases List.mem_cons.mp hr with rfl | hmem
    · exact Nat.le_max_left _ _
    · exact le_trans (ih r hmem) (Nat.le_max_right _ _)

theorem padCount (M : ℕ) (r : List Tile) :
    (⌈((M : ℕ) : ℚ) - ((r.length : ℕ) : ℚ)⌉).toNat = M - r.length := by
  rw [Int.ceil_sub_nat, Int.ceil_natCast]
  omega

theorem padRow_length (M : ℕ) (r : List Tile) (h : r.length ≤ M) :
    (padRow ((M : ℕ) : ℚ) r).length = M := by
  unfold padRow
  rw [List.length_append, List.length_replicate, padCount]
  omega

theorem padRow_getElem (M : ℕ) (r : List Tile) (x : ℕ)
    (hx1 : r.length ≤ x) (hx2 : x < M) :
    (padRow ((M : ℕ) : ℚ) r)[x]? = some (none : Tile) := by
  unfold padRow
  rw [List.getElem?_append_right hx1, List.getElem?_replicate, padCount, if_pos (by omega)]

theorem flatten_getElem (w : ℕ) :
    ∀ (L : List (List Tile)), (∀ l ∈ L, l.length = w) →
      ∀ y x : ℕ, y < L.length → x < w →
        L.flatten[y * w + x]? = (L.getD y [])[x]? := by
  intro L
  induction L with
  | nil =>
    intro _ y x hy _
    simp at hy
  | cons l t ih =>
    intro hw y x hy hx
    cases y with
    | zero =>
      rw [List.flatten_cons]
      have hl : x < l.length := by
        rw [hw l (List.mem_cons_self _ _)]
        exact hx
      rw [Nat.zero_mul, Nat.zero_add, List.getElem?_append, if_pos hl, List.getD_cons_zero]
    | succ y' =>
      rw [List.flatten_cons]
      have hl : l.length = w := hw l (List.mem_cons_self _ _)
      have hidx : (y' + 1) * w + x = l.length + (y' * w + x) := by
        rw [hl]
        ring
      rw [hidx, List.getElem?_append_right (Nat.le_add_right _ _)]
      
      have h2 : l.length + (y' * w + x) - l.length = y' * w + x := by omega
      rw [h2, List.getD_cons_succ]
      exact ih (fun l2 hl2 => hw l2 (List.mem_cons_of_mem _ hl2)) y' x (by simpa using hy) hx

/-- Padded cells of a jagged scene read back as `null` ("no tile"). -/
theorem getWall_make (rows : List (List Tile)) (h : 1 ≤ maxRowLen rows)
    (x y : ℕ) (hx : x < maxRowLen rows) (hy : y < rows.length)
    (hbeyond : (rows.getD y []).length ≤ x) :
    (Scene.make rows).getWall ⟨((x : ℕ) : ℚ), ((y : ℕ) : ℚ)⟩ = some (none : Tile) := by
  have hW : (Scene.make rows).width = ((maxRowLen rows : ℕ) : ℚ) := by
    show jsMaxWidth rows = _
    exact width_eq rows h
  have hH : (Scene.make rows).height = ((rows.length : ℕ) : ℚ) := rfl
  have hcont : (Scene.make rows).contains ⟨((x : ℕ) : ℚ), ((y : ℕ) : ℚ)⟩ = true := by
    simp only [Scene.contains, hW, hH, Bool.and_eq_true, decide_eq_true_eq]
    refine ⟨⟨⟨?_, ?_⟩, ?_⟩, ?_⟩
    · exact Nat.cast_nonneg x
    · exact_mod_cast hx
    · exact Nat.cast_nonneg y
    · exact_mod_cast hy
  simp only [Scene.getWall]
  rw [if_pos hcont]
  have hi : (((y : ℕ) : ℚ)) * (Scene.make rows).width + ((x : ℕ) : ℚ) =
      ((y * maxRowLen rows + x : ℕ) : ℚ) := by
    rw [hW]
    push_cast
    ring
  rw [hi]
  rw [if_pos ⟨Rat.den_natCast _, by rw [Rat.num_natCast]; exact_mod_cast Nat.zero_le _⟩]
  have hidx : (((y * maxRowLen rows + x : ℕ) : ℚ)).num.toNat = y * maxRowLen rows + x := by
    rw [Rat.num_natCast, Int.toNat_natCast]
  rw [hidx]
  have hwalls : (Scene.make rows).walls =
      (rows.map (padRow ((maxRowLen rows : ℕ) : ℚ))).flatten := by
    show (rows.map (padRow (jsMaxWidth rows))).flatten = _
    rw [width_eq rows h]
  rw [hwalls]
  rw [flatten_getElem (maxRowLen rows) (rows.map (padRow ((maxRowLen rows : ℕ) : ℚ)))
    (fun l hl => by
      obtain ⟨r, hr, rfl⟩ := List.mem_map.mp hl
      exact padRow_length _ r (le_maxRowLen rows r hr))
    y x (by simpa using hy) hx]
  have hgetD : (rows.map (padRow ((maxRowLen rows : ℕ) : ℚ))).getD y [] =
      padRow ((maxRowLen rows : ℕ) : ℚ) (rows.getD y []) := by
    rw [List.getD_eq_getElem?_getD, List.getElem?_map, List.getD_eq_getElem?_getD,
      List.getElem?_eq_getElem hy]
    rfl
  rw [hgetD]
  exact padRow_getElem _ _ x hbeyond hx

/-- C8 counterexample: on the jagged list `[[]]` (one empty row, so the
maximum row length is `0`), the constructor's fold starts from
`Number.MIN_VALUE = 2^(-1074)`, so `size()` returns `(2^-1074, 1)` and
not `(maxRowLength, rowCount) = (0, 1)`. -/
theorem scene_size_cex :
    (Scene.make [[]]).size ≠ ⟨((maxRowLen [[]] : ℕ) : ℚ), ((1 : ℕ) : ℚ)⟩ ∧
    (Scene.make [[]]).size = ⟨MIN_VALUE, 1⟩ := by
  have hmax0 : maxRowLen [[]] = 0 := rfl
  have hw : jsMaxWidth [[]] = MIN_VALUE := by
    rw [jsMaxWidth_eq, hmax0, Nat.cast_zero]
    exact max_eq_left MIN_VALUE_pos.le
  constructor
  · intro hcontra
    have hx := congrArg Vector2.x hcontra
    simp only [Scene.size] at hx
    rw [show (Scene.make [[]]).width = jsMaxWidth [[]] from rfl, hw, hmax0] at hx
    exact absurd hx (by with_unfolding_all decide)
  · simp only [Scene.size]
    rw [show (Scene.make [[]]).width = jsMaxWidth [[]] from rfl, hw]
    simp only [Vector2.mk.injEq]
    refine ⟨trivial, ?_⟩
    rw [show (Scene.make [[]]).height = ((1 : ℕ) : ℚ) from rfl, Nat.cast_one]

/-- C8 (amended): for every jagged row list with at least one nonempty
row, `size()` returns `(maxRowLength, rowCount)`, and `getWall` at any
in-bounds cell lying beyond its (shorter) row's original length returns
`null` ("no tile").  (For a list whose rows are all empty the width is
`Number.MIN_VALUE`, not `0`; see the counterexample.) -/
theorem scene_roundtrip (rows : List (List Tile)) (h : 1 ≤ maxRowLen rows) :
    (Scene.make rows).size = ⟨((maxRowLen rows : ℕ) : ℚ), ((rows.length : ℕ) : ℚ)⟩ ∧
    ∀ x y : ℕ, x < maxRowLen rows → y < rows.length → (rows.getD y []).length ≤ x →
      (Scene.make rows).getWall ⟨((x : ℕ) : ℚ), ((y : ℕ) : ℚ)⟩ = some (none : Tile) := by
  constructor
  · simp only [Scene.size]
    rw [show (Scene.make rows).width = jsMaxWidth rows from rfl, width_eq rows h]
    rfl
  · intro x y hx hy hb
    exact getWall_make rows h x y hx hy hb

/-- Witness for C8 (amended) on the jagged list `[[tile], []]`. -/
theorem scene_roundtrip_witness :
    1 ≤ maxRowLen sceneJagged ∧
    (Scene.make sceneJagged).size =
      ⟨((maxRowLen sceneJagged : ℕ) : ℚ), ((sceneJagged.length : ℕ) : ℚ)⟩ ∧
    (Scene.make sceneJagged).getWall ⟨((0 : ℕ) : ℚ), ((1 : ℕ) : ℚ)⟩ = some (none : Tile) :=
  ⟨by with_unfolding_all decide,
   (scene_roundtrip sceneJagged (by with_unfolding_all decide)).1,
   (scene_roundtrip sceneJagged (by with_unfolding_all decide)).2 0 1
     (by with_unfolding_all decide) (by with_unfolding_all decide)
     (by with_unfolding_all decide)⟩
